import Mathlib

/-!
Shallow embedding of `src/main.py`, the Chocoshop online store
(Flask app with a Firestore-backed product catalog, keyword search,
a process-global cart, and an authenticated product-ingestion flow).

Strings are modelled as `List Char`; Python's `str.lower()` is the
character-wise `Char.toLower`, `s[:5]` is `List.take 5`, and the
`in` substring test is `strIn` below.  Prices (Python floats holding
decimal amounts) are modelled as rationals.
-/

namespace OnlineStore

/-- Python strings, modelled as lists of characters. -/
abbrev Str := List Char

/-- `strStarts n h` holds when `n` is a leading segment of `h`
(helper for the Python `in` substring test). -/
def strStarts : Str → Str → Bool
  | [], _ => true
  | _ :: _, [] => false
  | c :: cs, d :: ds => decide (c = d) && strStarts cs ds

/-- Python's `needle in hay` substring containment test. -/
def strIn (needle : Str) : Str → Bool
  | [] => strStarts needle []
  | d :: t => strStarts needle (d :: t) || strIn needle t

/-- Character-wise lowercasing, the model of Python `str.lower()`. -/
def lowerStr (s : Str) : Str := s.map Char.toLower

/-- A product record, the shape of the dictionaries stored in the
`products` Firestore collection (`upload_to_firestore`, main.py:52-63). -/
structure Product where
  name : Str
  category : Str
  price : ℚ
  weight : ℚ
  image : Str
  description : Str
  keywords : Str
deriving DecidableEq, Repr

/-- A stored manager credential record from the `store_managers`
collection: a plaintext username and a salted password hash. -/
structure AuthUser where
  username : Str
  password : Str
deriving DecidableEq, Repr

/-- The responses the modelled route handlers can produce. -/
inductive Response where
  | redirectLogin : Response
  | redirectAddProduct : Response
  | redirectCartProducts : Response
  | renderLogin : Response
  | renderAddForm : Response
  | renderSearched : List Product → Response
  | renderCart : List Product → ℚ → Nat → Response
deriving DecidableEq, Repr

/-! ## Search component (`searched_products`, main.py:128-141) -/

/-- `searched_products` (main.py:128-141): for every product of the
catalog, scan the query tokens; on the first token whose lowercased
5-character truncation (`word.lower()[:5]`) occurs in the product's
keywords string, append the product and `break`. -/
def searched_products (all_products : List Product) (keywords : List Str) : List Product :=
  match all_products with
  | [] => []
  | p :: rest =>
      if keywords.any (fun word => strIn ((lowerStr word).take 5) p.keywords) then
        p :: searched_products rest keywords
      else
        searched_products rest keywords

/-- The `/search` route's tokenizer (main.py:269):
Python `query.split(' ')` — split on the single space character,
keeping empty chunks between consecutive separators. -/
def split_on_space : Str → List Str
  | [] => [[]]
  | c :: rest =>
      if c = ' ' then [] :: split_on_space rest
      else
        match split_on_space rest with
        | t :: ts => (c :: t) :: ts
        | [] => [[c]]

/-- The `/search` route handler (`search_products`, main.py:265-273):
on POST, tokenize the form field and render the results; the body has
no branch for GET, so Python returns `None` there (no response). -/
def search_products (isPost : Bool) (searchField : Str) (catalog : List Product) :
    Option Response :=
  if isPost then
    some (Response.renderSearched (searched_products catalog (split_on_space searchField)))
  else
    none

/-! ## Cart component (main.py:42, 276-294) -/

/-- The running-total loop of `cart_products` (main.py:279-282):
`total_amount = 0; for product in cart: total_amount += product['price']`. -/
def cartTotal (cart : List Product) : ℚ :=
  cart.foldl (fun acc p => acc + p.price) 0

/-- The `/cart` route handler (`cart_products`, main.py:276-283): renders
the cart with its item count (`len(cart)`) and total price. -/
def cart_products (cart : List Product) : Response :=
  Response.renderCart cart (cartTotal cart) cart.length

/-- The cart mutation of `remove_from_cart` (main.py:290-293): iterate the
cart, and at the first record whose `name` equals the requested name, call
`cart.remove(product)` — Python's `list.remove`, which deletes the first
element equal (by full record equality) to that record — then `break`. -/
def removeNamed (cart : List Product) (n : Str) : List Product :=
  match cart.find? (fun p => decide (p.name = n)) with
  | some p => cart.erase p
  | none => cart

/-- The `/remove` route handler (`remove_from_cart`, main.py:286-294):
mutate the cart as above, then redirect to the cart page. -/
def remove_from_cart (cart : List Product) (n : Str) : List Product × Response :=
  (removeNamed cart n, Response.redirectCartProducts)

/-! ## Authentication (`login`, main.py:186-207) -/

/-- The credential scan of the `/login` POST handler (main.py:194-207),
parameterized by the hash verifier `verify stored_hash password`
(`check_password_hash`).  Scanning the stored records in order: on the
first record whose username equals the submitted one and whose hash
verifies, log the user in and redirect; every record inspected without a
match flashes one credential-error notice.  Returns the established
session identity (if any) and the number of error notices flashed. -/
def login (verify : Str → Str → Bool) (users : List AuthUser) (un pw : Str) :
    Option AuthUser × Nat :=
  match users with
  | [] => (none, 0)
  | u :: rest =>
      if u.username = un ∧ verify u.password pw = true then (some u, 0)
      else
        let r := login verify rest un pw
        (r.1, r.2 + 1)

/-! ## Product ingestion (main.py:45-63, 210-243) -/

/-- The `products` Firestore collection, as an ordered association of
document keys to documents. -/
abbrev Firestore := List (Str × Product)

/-- Firestore `collection.document(key).set(doc)` semantics: overwrite
the document stored at the key if one exists, otherwise create it. -/
def docSet : Firestore → Str → Product → Firestore
  | [], k, d => [(k, d)]
  | e :: s, k, d => if e.1 = k then (k, d) :: s else e :: docSet s k d

/-- Firestore document lookup by key. -/
def docGet (store : Firestore) (k : Str) : Option Product :=
  (store.find? (fun e => decide (e.1 = k))).map (fun e => e.2)

/-- The document-key slug `name.replace(" ", "_").lower()` (main.py:54):
replace every space by an underscore, then lowercase. -/
def slug (name : Str) : Str :=
  lowerStr (name.map (fun c => if c = ' ' then '_' else c))

/-- `upload_to_firestore` (main.py:52-63): set the document keyed by the
slug of the name to a record of all fields, keywords lowercased. -/
def upload_to_firestore (store : Firestore) (name category : Str) (price weight : ℚ)
    (image_ref description keywords : Str) : Firestore :=
  docSet store (slug name)
    ⟨name, category, price, weight, image_ref, description, lowerStr keywords⟩

/-- The fixed prefix of the public image URL (main.py:237). -/
def urlBase : Str := "https://storage.cloud.google.com/".toList

/-- The `/add` route handler (`add_product`, main.py:210-243).  Result:
the response, the list of blob names written to the bucket, and the
resulting Firestore state.  When the session is authenticated and the
request is a POST, the handler reads the form fields, uploads the image
to `category/slug(name)`, builds the public image URL, writes the
catalog document, and redirects back to the form; on an authenticated
GET it renders the form.  Unauthenticated requests are redirected to the
login page.  The handler branches on the request method only — the
form's `DataRequired` validators are never invoked. -/
def add_product (bucket : Str) (authenticated isPost : Bool) (name category : Str)
    (price weight : ℚ) (description keywords : Str) (store : Firestore) :
    Response × List Str × Firestore :=
  if authenticated then
    if isPost then
      let name_to_save := slug name
      let dest := category ++ '/' :: name_to_save
      let image_ref := urlBase ++ bucket ++ '/' :: dest
      (Response.redirectAddProduct, [dest],
        upload_to_firestore store name category price weight image_ref description keywords)
    else (Response.renderAddForm, [], store)
  else (Response.redirectLogin, [], store)

/-- The tokenizer described by the specification, stated from its words
for comparison with the code's `split_on_space`: split the query on
whitespace, every maximal whitespace run acting as a single separator,
producing no empty tokens. -/
def whitespaceTokens (q : Str) : List Str :=
  (q.splitOnP (fun c => c.isWhitespace)).filter (fun t => decide (t ≠ []))

/-! ## Helper lemmas on the string model -/

theorem strStarts_iff (n h : Str) : strStarts n h = true ↔ n <+: h := by
  induction n generalizing h with
  | nil => simp [strStarts]
  | cons c cs ih =>
      cases h with
      | nil => simp [strStarts]
      | cons d ds => simp [strStarts, List.cons_prefix_cons, ih]

theorem strIn_iff (n h : Str) : strIn n h = true ↔ n <:+: h := by
  induction h with
  | nil => simp [strIn, strStarts_iff]
  | cons d t ih => simp [strIn, strStarts_iff, ih, List.infix_cons_iff]

theorem strIn_nil_left (h : Str) : strIn [] h = true := by
  cases h <;> simp [strIn, strStarts]

/-- The two normalizations of a token commute: lowercasing then taking the
first 5 characters (the code, `word.lower()[:5]`) equals taking the first
5 characters then lowercasing (the claim's reading). -/
theorem lowerStr_take (w : Str) : (lowerStr w).take 5 = lowerStr (w.take 5) := by
  simp [lowerStr, List.map_take]

theorem searched_products_eq_filter (catalog : List Product) (toks : List Str) :
    searched_products catalog toks =
      catalog.filter (fun p => toks.any (fun w => strIn (lowerStr (w.take 5)) p.keywords)) := by
  induction catalog with
  | nil => rfl
  | cons p rest ih =>
      simp only [searched_products, lowerStr, List.map_take, List.filter_cons, ih]

theorem split_on_space_ne_nil (q : Str) : split_on_space q ≠ [] := by
  cases q with
  | nil => simp [split_on_space]
  | cons c rest =>
      by_cases hc : c = ' '
      · simp [split_on_space, hc]
      · cases hx : split_on_space rest <;> simp [split_on_space, hc, hx]

theorem split_on_space_append (x y : Str) :
    split_on_space (x ++ ' ' :: y) = split_on_space x ++ split_on_space y := by
  induction x with
  | nil => simp [split_on_space]
  | cons c x' ih =>
      by_cases hc : c = ' '
      · subst hc
        simp [split_on_space, ih]
      · cases hx : split_on_space x' with
        | nil => exact absurd hx (split_on_space_ne_nil x')
        | cons t ts =>
            simp only [List.cons_append, split_on_space, if_neg hc, List.append_eq, ih, hx]

theorem nil_mem_split_on_space (q : Str)
    (h : (∃ a b, q = a ++ ' ' :: ' ' :: b) ∨ (∃ b, q = ' ' :: b) ∨ ∃ a, q = a ++ [' ']) :
    [] ∈ split_on_space q := by
  rcases h with ⟨a, b, rfl⟩ | ⟨b, rfl⟩ | ⟨a, rfl⟩
  · rw [show a ++ ' ' :: ' ' :: b = a ++ ' ' :: (' ' :: b) from rfl, split_on_space_append]
    simp [split_on_space]
  · simp [split_on_space]
  · rw [show a ++ [' '] = a ++ ' ' :: ([] : Str) from rfl, split_on_space_append]
    simp [split_on_space]

theorem intercalate_singleton (s a : Str) : List.intercalate s [a] = a := by
  simp [List.intercalate]

theorem intercalate_cons_cons (s a b : Str) (ts : List Str) :
    List.intercalate s (a :: b :: ts) = a ++ s ++ List.intercalate s (b :: ts) := by
  simp [List.intercalate, List.intersperse_cons_cons]

theorem intercalate_split_on_space (q : Str) :
    List.intercalate [' '] (split_on_space q) = q := by
  induction q with
  | nil => simp [split_on_space, intercalate_singleton]
  | cons c rest ih =>
      by_cases hc : c = ' '
      · subst hc
        cases hx : split_on_space rest with
        | nil => exact absurd hx (split_on_space_ne_nil rest)
        | cons t ts =>
            rw [hx] at ih
            simp only [split_on_space, if_pos trivial, hx]
            rw [intercalate_cons_cons]
            simp [ih]
      · cases hx : split_on_space rest with
        | nil => exact absurd hx (split_on_space_ne_nil rest)
        | cons t ts =>
            rw [hx] at ih
            cases ts with
            | nil =>
                simp only [split_on_space, if_neg hc, hx, intercalate_singleton]
                rw [intercalate_singleton] at ih
                rw [ih]
            | cons t2 ts2 =>
                simp only [split_on_space, if_neg hc, hx, intercalate_cons_cons] at ih ⊢
                simp only [List.cons_append]
                rw [ih]

theorem space_not_mem_split_on_space (q : Str) : ∀ t ∈ split_on_space q, ' ' ∉ t := by
  induction q with
  | nil => simp [split_on_space]
  | cons c rest ih =>
      by_cases hc : c = ' '
      · subst hc
        simpa [split_on_space] using ih
      · cases hx : split_on_space rest with
        | nil => exact absurd hx (split_on_space_ne_nil rest)
        | cons t ts =>
            rw [hx] at ih
            simp only [split_on_space, if_neg hc, hx]
            intro t' ht'
            rcases List.mem_cons.mp ht' with rfl | hts
            · intro hsp
              rcases List.mem_cons.mp hsp with hce | hct
              · exact hc hce.symm
              · exact ih t (List.mem_cons_self t ts) hct
            · exact ih t' (List.mem_cons_of_mem t hts)

theorem cartTotal_eq_sum (cart : List Product) :
    cartTotal cart = (cart.map (fun p => p.price)).sum := by
  rw [cartTotal, List.sum_eq_foldl, List.foldl_map]

theorem removeNamed_eq_eraseP (cart : List Product) (n : Str) :
    removeNamed cart n = cart.eraseP (fun p => decide (p.name = n)) := by
  induction cart with
  | nil => rfl
  | cons p rest ih =>
      by_cases hp : p.name = n
      · rw [removeNamed, List.find?_cons_of_pos _ (by simpa using hp)]
        show (p :: rest).erase p = _
        rw [List.erase_cons_head, List.eraseP_cons_of_pos (by simpa using hp)]
      · rw [removeNamed, List.find?_cons_of_neg _ (by simpa using hp),
            List.eraseP_cons_of_neg (by simpa using hp)]
        rw [removeNamed] at ih
        cases hf : rest.find? (fun q => decide (q.name = n)) with
        | none =>
            rw [hf] at ih
            have ih' : rest = List.eraseP (fun p => decide (p.name = n)) rest := ih
            show p :: rest = _
            rw [← ih']
        | some q =>
            rw [hf] at ih
            have ih' : rest.erase q = List.eraseP (fun p => decide (p.name = n)) rest := ih
            have hq : q.name = n := by simpa using List.find?_some hf
            have hne : ¬(p == q) = true := by
              simp only [beq_iff_eq]
              intro he
              exact hp (he ▸ hq)
            show (p :: rest).erase q = _
            rw [List.erase_cons_tail hne, ih']

theorem login_fst (verify : Str → Str → Bool) (users : List AuthUser) (un pw : Str) :
    (login verify users un pw).1
      = users.find? (fun u => decide (u.username = un) && verify u.password pw) := by
  induction users with
  | nil => rfl
  | cons u rest ih =>
      by_cases h : u.username = un ∧ verify u.password pw = true
      · rw [login, if_pos h, List.find?_cons_of_pos _ (by simp [h.1, h.2])]
      · rw [login, if_neg h, List.find?_cons_of_neg _ (by simpa [Decidable.not_and_iff_or_not] using h)]
        exact ih

theorem login_flash_count (verify : Str → Str → Bool) (users : List AuthUser) (un pw : Str) :
    (login verify users un pw).1 = none → (login verify users un pw).2 = users.length := by
  induction users with
  | nil => intro _; rfl
  | cons u rest ih =>
      by_cases h : u.username = un ∧ verify u.password pw = true
      · rw [login, if_pos h]
        intro hn
        exact absurd hn (by simp)
      · rw [login, if_neg h]
        intro hn
        simp only [List.length_cons]
        rw [ih hn]

theorem docGet_docSet_self (store : Firestore) (k : Str) (d : Product) :
    docGet (docSet store k d) k = some d := by
  induction store with
  | nil => simp [docSet, docGet]
  | cons e s ih =>
      by_cases he : e.1 = k
      · simp only [docSet, if_pos he, docGet]
        rw [List.find?_cons_of_pos _ (by simp)]
        rfl
      · rw [docGet] at ih
        simp only [docSet, if_neg he, docGet]
        rw [List.find?_cons_of_neg _ (by simpa using he)]
        exact ih

theorem length_docSet_of_key_mem (store : Firestore) (k : Str) (d : Product)
    (h : ∃ e ∈ store, e.1 = k) : (docSet store k d).length = store.length := by
  induction store with
  | nil =>
      rcases h with ⟨e, he, _⟩
      exact absurd he (List.not_mem_nil e)
  | cons e s ih =>
      by_cases he : e.1 = k
      · simp [docSet, he]
      · rcases h with ⟨e', he', hk⟩
        rcases List.mem_cons.mp he' with rfl | hs
        · exact absurd hk he
        · simp only [docSet, if_neg he, List.length_cons]
          rw [ih ⟨e', hs, hk⟩]

theorem key_mem_docSet (store : Firestore) (k : Str) (d : Product) :
    ∃ e ∈ docSet store k d, e.1 = k := by
  induction store with
  | nil => exact ⟨(k, d), by simp [docSet]⟩
  | cons e s ih =>
      by_cases he : e.1 = k
      · exact ⟨(k, d), by simp [docSet, he]⟩
      · rcases ih with ⟨e', he', hk⟩
        exact ⟨e', by simp [docSet, he, he'], hk⟩

/-! ## Sample records for concrete checks -/

/-- The spec's sample product, a record of the `products` collection. -/
def darkBar : Product :=
  ⟨"Dark Bar".toList, "chocolate".toList, 5, 100, [], [], "rich dark cocoa".toList⟩

/-- A second sample product with a different name. -/
def milkBar : Product :=
  ⟨"Milk Bar".toList, "chocolate".toList, 4, 90, [], [], "creamy milk".toList⟩

/-- A sample product sharing `darkBar`'s name but differing elsewhere. -/
def darkBarCheap : Product :=
  ⟨"Dark Bar".toList, "chocolate".toList, 3, 50, [], [], "dark".toList⟩

/-! ## Claim theorems -/

/-- Claim C1: for every catalog and every token list, the search result is
the ordered subsequence of the catalog (a filter, hence in original order
with each matching entry exactly once) of exactly those products for which
some token, truncated to its first 5 characters and lowercased, occurs as
a substring of the product's keywords string. -/
theorem searched_products_claim (catalog : List Product) (toks : List Str) :
    searched_products catalog toks
        = catalog.filter (fun p => toks.any (fun w => strIn (lowerStr (w.take 5)) p.keywords))
      ∧ (searched_products catalog toks).Sublist catalog
      ∧ ∀ p : Product, p ∈ searched_products catalog toks ↔
          p ∈ catalog ∧ ∃ w ∈ toks, lowerStr (w.take 5) <:+: p.keywords := by
  refine ⟨searched_products_eq_filter catalog toks, ?_, ?_⟩
  · rw [searched_products_eq_filter]
    exact List.filter_sublist catalog
  · intro p
    rw [searched_products_eq_filter]
    simp [List.mem_filter, List.any_eq_true, strIn_iff]

/-- Claim C2: the `/cart` view renders a total equal to the sum of the
`price` field over the cart's entries and a count equal to the number of
entries; the empty cart yields total 0 and count 0. -/
theorem cart_products_claim (cart : List Product) :
    cart_products cart
        = Response.renderCart cart ((cart.map (fun p => p.price)).sum) cart.length
      ∧ cart_products [] = Response.renderCart [] 0 0 := by
  constructor
  · rw [cart_products, cartTotal_eq_sum]
  · rfl

/-- Claim C3: the `/remove` handler deletes exactly the first entry whose
name matches (leaving every other entry, later duplicates included, in the
same relative order), leaves the cart unchanged when nothing matches, and
always redirects to the cart page. -/
theorem remove_from_cart_claim (cart : List Product) (n : Str) :
    (remove_from_cart cart n).2 = Response.redirectCartProducts
      ∧ ((∀ p ∈ cart, p.name ≠ n) → (remove_from_cart cart n).1 = cart)
      ∧ ∀ (l₁ : List Product) (p : Product) (l₂ : List Product),
          cart = l₁ ++ p :: l₂ → p.name = n → (∀ q ∈ l₁, q.name ≠ n) →
          (remove_from_cart cart n).1 = l₁ ++ l₂ := by
  refine ⟨rfl, ?_, ?_⟩
  · intro h
    show removeNamed cart n = cart
    rw [removeNamed_eq_eraseP]
    exact List.eraseP_of_forall_not (by simpa using h)
  · intro l₁ p l₂ hc hpn hl₁
    show removeNamed cart n = l₁ ++ l₂
    subst hc
    rw [removeNamed_eq_eraseP, List.eraseP_append_right _ (by simpa using hl₁),
        List.eraseP_cons_of_pos (by simpa using hpn)]

/-- Witness for C3: removing "Dark Bar" from a cart holding two records
with that name deletes only the first one and keeps the later duplicate. -/
theorem remove_from_cart_claim_witness :
    (remove_from_cart [darkBar, milkBar, darkBarCheap] ("Dark Bar".toList)).1
      = [milkBar, darkBarCheap] :=
  (remove_from_cart_claim [darkBar, milkBar, darkBarCheap] ("Dark Bar".toList)).2.2
    [] darkBar [milkBar, darkBarCheap] rfl (by decide) (by decide)

/-- Claim C9: a query containing two consecutive spaces, or a leading or
trailing space, yields an empty token under the single-space split; the
empty token is a substring of every keywords string, so the search
returns the whole catalog. -/
theorem search_with_stray_space_returns_all (q : Str) (catalog : List Product)
    (h : (∃ a b, q = a ++ ' ' :: ' ' :: b) ∨ (∃ b, q = ' ' :: b) ∨ ∃ a, q = a ++ [' ']) :
    searched_products catalog (split_on_space q) = catalog := by
  have hmem : [] ∈ split_on_space q := nil_mem_split_on_space q h
  induction catalog with
  | nil => rfl
  | cons p rest ih =>
      have hp : (split_on_space q).any
          (fun w => strIn ((lowerStr w).take 5) p.keywords) = true :=
        List.any_eq_true.mpr ⟨[], hmem, by simpa [lowerStr] using strIn_nil_left p.keywords⟩
      simp only [searched_products]
      rw [if_pos hp, ih]

/-- Witness for C9: the query "a  b" (two consecutive spaces) returns the
whole one-product catalog. -/
theorem search_with_stray_space_witness :
    searched_products [darkBar] (split_on_space ['a', ' ', ' ', 'b']) = [darkBar] :=
  search_with_stray_space_returns_all ['a', ' ', ' ', 'b'] [darkBar]
    (Or.inl ⟨['a'], ['b'], rfl⟩)

/-- Claim C10: the `/search` handler's body only covers POST; on GET it
produces no response at all (Python returns `None`, which Flask turns
into a server error), while POST renders the result page. -/
theorem search_products_get_claim (f : Str) (catalog : List Product) :
    search_products false f catalog = none
      ∧ search_products true f catalog
          = some (Response.renderSearched (searched_products catalog (split_on_space f))) :=
  ⟨rfl, rfl⟩

/-- Counterexample to C4 as stated: with no stored manager records, a
login attempt fails but emits no user-visible credential-error notice
(the scan loop's body, including the flash, never runs). -/
theorem login_claim_counterexample :
    (login (fun _ _ => true) [] [] []).1 = none
      ∧ ¬ 0 < (login (fun _ _ => true) [] [] []).2 :=
  ⟨rfl, by decide⟩

/-- Claim C4 (amended): the session identity established equals the first
stored record whose username equals the submitted one and whose hash
verifies; authentication succeeds iff such a record exists; and on
failure one credential-error notice is flashed per stored record, hence
at least one whenever any record is stored (none when the store is
empty). -/
theorem login_claim (verify : Str → Str → Bool) (users : List AuthUser) (un pw : Str) :
    (login verify users un pw).1
        = users.find? (fun u => decide (u.username = un) && verify u.password pw)
      ∧ ((login verify users un pw).1.isSome
          ↔ ∃ u ∈ users, u.username = un ∧ verify u.password pw = true)
      ∧ ((login verify users un pw).1 = none →
          (login verify users un pw).2 = users.length) := by
  refine ⟨login_fst verify users un pw, ?_, login_flash_count verify users un pw⟩
  rw [login_fst, List.find?_isSome]
  simp

/-- Witness for C4 (amended): one stored record, non-verifying password:
the attempt fails and flashes exactly one error notice. -/
theorem login_claim_witness :
    (login (fun _ _ => false) [⟨['a'], ['h']⟩] ['b'] ['p']).2 = 1 :=
  (login_claim (fun _ _ => false) [⟨['a'], ['h']⟩] ['b'] ['p']).2.2 (by decide)

/-- Claim C5: ingestion writes the document under the key `slug name`
with the keywords lowercased, and re-ingesting a product with the same
name (any other field values) writes to the same key, overwriting the
stored document without growing the collection. -/
theorem upload_to_firestore_claim (store : Firestore) (name category : Str)
    (price weight : ℚ) (img desc kw : Str) (category' : Str) (price' weight' : ℚ)
    (img' desc' kw' : Str) :
    docGet (upload_to_firestore store name category price weight img desc kw) (slug name)
        = some ⟨name, category, price, weight, img, desc, lowerStr kw⟩
      ∧ (upload_to_firestore (upload_to_firestore store name category price weight img desc kw)
            name category' price' weight' img' desc' kw').length
          = (upload_to_firestore store name category price weight img desc kw).length
      ∧ docGet (upload_to_firestore
            (upload_to_firestore store name category price weight img desc kw)
            name category' price' weight' img' desc' kw') (slug name)
          = some ⟨name, category', price', weight', img', desc', lowerStr kw'⟩ := by
  refine ⟨docGet_docSet_self store (slug name) _, ?_, docGet_docSet_self _ (slug name) _⟩
  exact length_docSet_of_key_mem _ (slug name) _ (key_mem_docSet store (slug name) _)

/-- C6 is violated by the code: the `/add` handler never runs the form's
`DataRequired` validators (it branches on the request method only).  On
an authenticated POST with the required name field empty, it still
uploads the image blob and writes a catalog document (keyed by the empty
slug) and redirects — no validation error, and the writes do occur. -/
theorem add_product_missing_name_still_writes :
    (add_product [] true true [] ("chocolate".toList) 5 100 [] [] []).1
        = Response.redirectAddProduct
      ∧ (add_product [] true true [] ("chocolate".toList) 5 100 [] [] []).2.1 ≠ []
      ∧ (add_product [] true true [] ("chocolate".toList) 5 100 [] [] []).2.2 ≠ [] := by
  refine ⟨rfl, ?_, ?_⟩ <;> decide

/-- Counterexample to C7 as stated: the code splits the query on the
single space character, so "a  b" produces an empty middle token rather
than the claimed whitespace tokenization without empty tokens. -/
theorem split_on_space_counterexample :
    split_on_space ['a', ' ', ' ', 'b'] ≠ whitespaceTokens ['a', ' ', ' ', 'b'] := by
  decide

/-- Claim C7 (amended): the token list passed to the search component is
the query split on the single space character: the tokens contain no
space, rejoining them with single spaces reconstructs the query exactly
(so consecutive, leading or trailing spaces yield empty tokens and tabs
never separate), and the token list is never empty. -/
theorem split_on_space_claim (q : Str) (catalog : List Product) :
    search_products true q catalog
        = some (Response.renderSearched (searched_products catalog (split_on_space q)))
      ∧ List.intercalate [' '] (split_on_space q) = q
      ∧ (∀ t ∈ split_on_space q, ' ' ∉ t)
      ∧ split_on_space q ≠ [] :=
  ⟨rfl, intercalate_split_on_space q, space_not_mem_split_on_space q,
    split_on_space_ne_nil q⟩

/-- Claim C8: any request to the `/add` route without an authenticated
session — GET or POST, whatever the submitted fields — is answered with a
redirect to the login page, with no bucket write and no catalog write. -/
theorem add_product_unauthenticated_claim (bucket : Str) (isPost : Bool)
    (name category : Str) (price weight : ℚ) (desc kw : Str) (store : Firestore) :
    add_product bucket false isPost name category price weight desc kw store
      = (Response.redirectLogin, [], store) := rfl

end OnlineStore
